import Mathlib

/-!
Verification of the J-Archive scraper (src/scaper/scrape.py).

Strings are modelled as lists of characters; HTML elements are modelled by
structures that record exactly the fields the scraper reads from them
(selector results become Option-valued fields, element text becomes a
character list).  Every definition is a direct translation of the
corresponding Python function.
-/

namespace JArchive

/-- Model of the whitespace class used by the Python regex escape for
whitespace and by str.strip: space, tab, newline, carriage return,
vertical tab, form feed. -/
def isWs (c : Char) : Bool :=
  c == ' ' || c == '\t' || c == '\n' || c == '\r' || c == Char.ofNat 11 || c == Char.ofNat 12

/-- Replace every maximal run of whitespace by a single space.  This is
re.sub applied to the whitespace-run pattern with a single-space
replacement, written with an accumulator flag that records whether the
previous character was part of a whitespace run. -/
def collapseAux : Bool → List Char → List Char
  | _, [] => []
  | prevWs, c :: cs =>
    if isWs c then
      if prevWs then collapseAux true cs else ' ' :: collapseAux true cs
    else
      c :: collapseAux false cs

/-- Remove trailing whitespace (the right half of str.strip). -/
def dropTrailingWs (l : List Char) : List Char :=
  (l.reverse.dropWhile isWs).reverse

/-- str.strip: remove trailing then leading whitespace. -/
def stripChars (l : List Char) : List Char :=
  (dropTrailingWs l).dropWhile isWs

/-- squish from scrape.py: collapse whitespace and strip; None maps to the
empty string. -/
def squish : Option (List Char) → List Char
  | none => []
  | some t => stripChars (collapseAux false t)

/-- text_or_blank from scrape.py: squish of the element text when the
element is present, the empty string otherwise. -/
def text_or_blank : Option (List Char) → List Char
  | none => []
  | some t => squish (some t)

/-- A character matched by the bracket class inside the money regex:
a digit or a grouping comma. -/
def isDigitOrComma (c : Char) : Bool :=
  c.isDigit || c == ','

/-- re.findall for the digit-group pattern (a digit followed by digits or
commas): scan left to right, at each digit take the maximal group and
continue after it.  The scan carries a fuel bound so that the recursion
is structural; every step consumes at least one character, so the wrapper
below never exhausts the fuel. -/
def findGroupsFuel : Nat → List Char → List (List Char)
  | 0, _ => []
  | _ + 1, [] => []
  | fuel + 1, c :: cs =>
    if c.isDigit then
      (c :: cs.takeWhile isDigitOrComma) :: findGroupsFuel fuel (cs.dropWhile isDigitOrComma)
    else
      findGroupsFuel fuel cs

/-- The digit groups of a string: the scan started with fuel equal to the
input length. -/
def findGroups (l : List Char) : List (List Char) :=
  findGroupsFuel l.length l

lemma findGroupsFuel_nil (fuel : Nat) : findGroupsFuel fuel [] = [] := by
  cases fuel <;> rfl

/-- Any fuel at least the input length yields the same scan, so the
wrapper computes the unbounded scan. -/
lemma findGroupsFuel_stable :
    ∀ (fuel : Nat) (s : List Char), s.length ≤ fuel →
      ∀ fuel2, s.length ≤ fuel2 → findGroupsFuel fuel s = findGroupsFuel fuel2 s := by
  intro fuel
  induction fuel with
  | zero =>
    intro s hs fuel2 _
    rw [List.length_eq_zero.mp (Nat.le_zero.mp hs), findGroupsFuel_nil, findGroupsFuel_nil]
  | succ n ih =>
    intro s hs fuel2 hs2
    cases s with
    | nil => rw [findGroupsFuel_nil, findGroupsFuel_nil]
    | cons c cs =>
      cases fuel2 with
      | zero => exact absurd hs2 (by simp)
      | succ m =>
        have hcs : cs.length ≤ n := by simpa using hs
        have hcs2 : cs.length ≤ m := by simpa using hs2
        rw [findGroupsFuel, findGroupsFuel]
        by_cases h : c.isDigit
        · have hd : (cs.dropWhile isDigitOrComma).length ≤ cs.length :=
            (List.dropWhile_sublist isDigitOrComma).length_le
          rw [if_pos h, if_pos h,
            ih _ (le_trans hd hcs) m (le_trans hd hcs2)]
        · rw [if_neg h, if_neg h, ih _ hcs m hcs2]

/-- str.replace removing every comma from the matched group. -/
def stripCommas (l : List Char) : List Char :=
  l.filter (fun c => !(c == ','))

/-- Decimal value of a digit string. -/
def digitsVal (l : List Char) : Nat :=
  l.foldl (fun acc c => acc * 10 + (c.toNat - 48)) 0

/-- Model of the int conversion guarded by try/except in parse_money: on
the digit strings that reach it the conversion succeeds with the decimal
value, and any string it cannot convert yields none instead of an
exception. -/
def toIntOpt (l : List Char) : Option Int :=
  if l.isEmpty then none
  else if l.all Char.isDigit then some ((digitsVal l : Nat) : Int)
  else none

/-- parse_money from scrape.py: None or empty input gives none; otherwise
take the last digit group found, strip commas, and convert. -/
def parse_money (raw : Option (List Char)) : Option Int :=
  match raw with
  | none => none
  | some s =>
    if s.isEmpty then none
    else
      match (findGroups s).getLast? with
      | none => none
      | some g => toIntOpt (stripCommas g)

/-- One emitted clue row: the dictionary appended by parse_round and
parse_final. -/
structure ClueRecord where
  topic : List Char
  money : Option Int
  question : List Char
  answer : List Char
deriving DecidableEq

/-- A td element of class clue_text as read by the scraper: its id
attribute (empty when absent), its text, and the text of the nested
correct-response em element when that element is present. -/
structure ClueTextTd where
  td_id : List Char
  text : List Char
  correctResponse : Option (List Char)
deriving DecidableEq

/-- A td element of class clue inside a round row: whether it holds a
nested table (populated cell), the text of its value td when one is
selected, and its clue_text td elements in document order. -/
structure ClueCell where
  hasTable : Bool
  valTd : Option (List Char)
  clueTexts : List ClueTextTd
deriving DecidableEq

/-- A round table: the category-name texts of the td.category cells (none
when the cell has no category_name child), and the tr rows, each with its
td.clue cells.  The first tr is the category row. -/
structure RoundTable where
  catCells : List (Option (List Char))
  trs : List (List ClueCell)
deriving DecidableEq

/-- extract_answer from scrape.py: the text of the correct-response em
inside the reveal cell, empty when the cell or the em is absent. -/
def extract_answer (clue_answer_td : Option ClueTextTd) : List Char :=
  match clue_answer_td with
  | none => []
  | some td => text_or_blank td.correctResponse

/-- Does a td id end in the reveal suffix, as tested by str.endswith? -/
def isRevealId (td_id : List Char) : Bool :=
  ("_r").data.isSuffixOf td_id

/-- Python's or on optional values: keep the first when it is set. -/
def orElseO (x y : Option α) : Option α :=
  match x with
  | some v => some v
  | none => y

/-- The loop of parse_round over the clue_text tds of one cell: the first
non-reveal td becomes the question cell, each reveal td overwrites the
answer cell. -/
def findQA (tds : List ClueTextTd) : Option ClueTextTd × Option ClueTextTd :=
  tds.foldl
    (fun qa td =>
      if isRevealId td.td_id then (qa.1, some td)
      else (orElseO qa.1 (some td), qa.2))
    (none, none)

/-- Body of the cell loop of parse_round: skip cells without a nested
table, otherwise build the record and emit it only when question or
answer is non-empty. -/
def cell_record (categories : List (List Char)) (col_idx : Nat) (cell : ClueCell) :
    Option ClueRecord :=
  if !cell.hasTable then none
  else
    let money := parse_money (some (text_or_blank cell.valTd))
    let qa := findQA cell.clueTexts
    let question := text_or_blank (qa.1.map ClueTextTd.text)
    let answer := extract_answer qa.2
    let topic := categories.getD col_idx []
    if question.isEmpty && answer.isEmpty then none
    else some { topic := topic, money := money, question := question, answer := answer }

/-- Body of the row loop of parse_round: rows without clue cells are
skipped, otherwise the cells are processed with their column index. -/
def parse_row (categories : List (List Char)) (row : List ClueCell) : List ClueRecord :=
  if row.isEmpty then []
  else row.enum.filterMap (fun p => cell_record categories p.1 p.2)

/-- parse_round from scrape.py: read the category labels, then process
every row after the first. -/
def parse_round (round_table : RoundTable) ( round_prefix : List Char) : List ClueRecord :=
  let _ := round_prefix
  let categories := round_table.catCells.map text_or_blank
  if round_table.trs.isEmpty then []
  else (round_table.trs.drop 1).flatMap (parse_row categories)

/-- The final-round table as read by parse_final: the category-name text,
the text of the final prompt td, and the final reveal td element. -/
structure FinalTable where
  categoryName : Option (List Char)
  clueFJ : Option (List Char)
  clueFJr : Option ClueTextTd
deriving DecidableEq

/-- parse_final from scrape.py: empty when the final-round table is
absent, otherwise at most one record, with money always none. -/
def parse_final (final_tbl : Option FinalTable) : List ClueRecord :=
  match final_tbl with
  | none => []
  | some ft =>
    let topic := text_or_blank ft.categoryName
    let question := text_or_blank ft.clueFJ
    let answer := extract_answer ft.clueFJr
    if question.isEmpty && answer.isEmpty then []
    else [{ topic := topic, money := none, question := question, answer := answer }]

/-- The parts of the page read by extract_show_metadata: the text of the
comments element, the text of the heading element, and the presence of
the three game-type marker elements. -/
structure MetaSoup where
  gameComments : Option (List Char)
  titleText : Option (List Char)
  tournamentMarker : Bool
  celebrityMarker : Bool
  collegeMarker : Bool
deriving DecidableEq

/-- The metadata dictionary after the defaults are applied: it always
carries exactly these three fields. -/
structure ShowMetadata where
  show_id : List Char
  air_date : List Char
  game_type : List Char
deriving DecidableEq

/-- Match of the ISO date shape (four digits, dash, two digits, dash,
two digits) at the head of the list. -/
def isoAt (l : List Char) : Option (List Char) :=
  match l with
  | a :: b :: c :: d :: h1 :: e :: f :: h2 :: g :: h :: _ =>
    if a.isDigit && b.isDigit && c.isDigit && d.isDigit && h1 == '-' &&
       e.isDigit && f.isDigit && h2 == '-' && g.isDigit && h.isDigit
    then some [a, b, c, d, h1, e, f, h2, g, h]
    else none
  | _ => none

/-- re.search for the ISO date shape: leftmost match. -/
def searchISO : List Char → Option (List Char)
  | [] => none
  | c :: cs =>
    match isoAt (c :: cs) with
    | some m => some m
    | none => searchISO cs

/-- The month-name alternatives of the long-form date regex, in the order
they appear in the alternation. -/
def monthNames : List (List Char) :=
  [("January").data, ("February").data, ("March").data, ("April").data,
   ("May").data, ("June").data, ("July").data, ("August").data,
   ("September").data, ("October").data, ("November").data, ("December").data]

/-- The weekday alternatives of the title date regex, in order. -/
def dayNames : List (List Char) :=
  [("Monday").data, ("Tuesday").data, ("Wednesday").data, ("Thursday").data,
   ("Friday").data, ("Saturday").data, ("Sunday").data]

/-- Try an alternation of literal words as a prefix of the input; return
the word and the rest of the input.  No word of either alternation is a
prefix of another, so this is the regex alternation at one position. -/
def tryAlts : List (List Char) → List Char → Option (List Char × List Char)
  | [], _ => none
  | a :: alts, l =>
    if a.isPrefixOf l then some (a, l.drop a.length) else tryAlts alts l

/-- One-or-more whitespace: fails when the head is not whitespace,
otherwise consumes the maximal run. -/
def ws1 (l : List Char) : Option (List Char) :=
  match l with
  | [] => none
  | c :: cs => if isWs c then some (cs.dropWhile isWs) else none

/-- Exactly four digits. -/
def year4 (l : List Char) : Option (List Char) :=
  match l with
  | a :: b :: c :: d :: _ =>
    if a.isDigit && b.isDigit && c.isDigit && d.isDigit then some [a, b, c, d] else none
  | _ => none

/-- The optional comma, mandatory whitespace and four-digit year of the
long-form date regex, with the regex backtracking over the optional
comma. -/
def matchCommaWsYear (l : List Char) : Option (List Char) :=
  let attempt := fun (x : List Char) =>
    match ws1 x with
    | none => none
    | some x2 => year4 x2
  match l with
  | ',' :: rest =>
    (match attempt rest with
     | some y => some y
     | none => attempt l)
  | _ => attempt l

/-- The one-or-two-digit day followed by the comma, whitespace and year,
with the regex backtracking from a two-digit day to a one-digit day. -/
def matchDayYear (l : List Char) : Option (List Char × List Char) :=
  match l with
  | [] => none
  | a :: rest =>
    if !a.isDigit then none
    else
      match rest with
      | b :: rest2 =>
        if b.isDigit then
          match matchCommaWsYear rest2 with
          | some y => some ([a, b], y)
          | none => (matchCommaWsYear rest).map (fun y => ([a], y))
        else (matchCommaWsYear rest).map (fun y => ([a], y))
      | [] => (matchCommaWsYear rest).map (fun y => ([a], y))

/-- After a month name: mandatory whitespace, then day, comma, year. -/
def matchAfterMonth (l : List Char) : Option (List Char × List Char) :=
  match ws1 l with
  | none => none
  | some l1 => matchDayYear l1

/-- Match of the long-form date regex (month, day, year) at one
position. -/
def longAt (l : List Char) : Option (List Char × List Char × List Char) :=
  match tryAlts monthNames l with
  | none => none
  | some (m, rest) =>
    match matchAfterMonth rest with
    | none => none
    | some (d, y) => some (m, d, y)

/-- re.search for the long-form date: leftmost match. -/
def searchLong : List Char → Option (List Char × List Char × List Char)
  | [] => none
  | c :: cs =>
    match longAt (c :: cs) with
    | some r => some r
    | none => searchLong cs

/-- Match of the weekday-prefixed title date regex at one position: a
weekday, a comma, whitespace, then the long-form month, day and year.
The captured weekday is discarded by the scraper. -/
def titleAt (l : List Char) : Option (List Char × List Char × List Char) :=
  match tryAlts dayNames l with
  | none => none
  | some (_, rest) =>
    match rest with
    | ',' :: rest2 =>
      (match ws1 rest2 with
       | none => none
       | some rest3 =>
         match tryAlts monthNames rest3 with
         | none => none
         | some (m, rest4) =>
           match matchAfterMonth rest4 with
           | none => none
           | some (d, y) => some (m, d, y))
    | _ => none

/-- re.search for the weekday-prefixed title date: leftmost match. -/
def searchTitleLong : List Char → Option (List Char × List Char × List Char)
  | [] => none
  | c :: cs =>
    match titleAt (c :: cs) with
    | some r => some r
    | none => searchTitleLong cs

/-- Gregorian leap year, as used by datetime. -/
def isLeap (y : Nat) : Bool :=
  (y % 4 == 0 && !(y % 100 == 0)) || y % 400 == 0

/-- Days of a month, as validated by the datetime constructor. -/
def daysInMonth (y m : Nat) : Nat :=
  if m == 2 then (if isLeap y then 29 else 28)
  else if m == 4 || m == 6 || m == 9 || m == 11 then 30
  else 31

/-- Validity of a calendar date in the range accepted by datetime. -/
def validDate (y m d : Nat) : Bool :=
  decide (1 ≤ y) && decide (y ≤ 9999) && decide (1 ≤ m) && decide (m ≤ 12) &&
  decide (1 ≤ d) && decide (d ≤ daysInMonth y m)

/-- Two-digit zero-padded field of strftime. -/
def pad2 (n : Nat) : List Char :=
  if n < 10 then '0' :: Nat.toDigits 10 n else Nat.toDigits 10 n

/-- strftime with the ISO layout: year, month and day separated by
dashes, month and day zero-padded to two digits. -/
def formatDate (y m d : Nat) : List Char :=
  Nat.toDigits 10 y ++ '-' :: (pad2 m ++ '-' :: pad2 d)

/-- strptime of the matched month name, day and year followed by the
strftime reformatting: none exactly when the calendar date is invalid,
which is the ValueError swallowed by the scraper. -/
def convertMDY (m d y : List Char) : Option (List Char) :=
  match monthNames.findIdx? (fun x => x == m) with
  | none => none
  | some idx =>
    let mn := idx + 1
    let dn := digitsVal d
    let yn := digitsVal y
    if validDate yn mn dn then some (formatDate yn mn dn) else none

/-- The long-form stage on the comments text: the first long-form match
converted, empty when there is no match or the conversion fails. -/
def commentsLongStage (txt : List Char) : List Char :=
  match searchLong txt with
  | some (m, d, y) => (convertMDY m d y).getD []
  | none => []

/-- The title stage: the first weekday-prefixed match in the heading
text, converted; empty when the heading is absent, nothing matches, or
the conversion fails. -/
def titleStage (s : MetaSoup) : List Char :=
  match s.titleText with
  | none => []
  | some t =>
    match searchTitleLong t with
    | some (m, d, y) => (convertMDY m d y).getD []
    | none => []

/-- The air-date portion of extract_show_metadata: in the comments text
an ISO-shaped match is taken verbatim, otherwise the long-form stage
runs; only when the comments produced nothing does the title stage
run. -/
def extract_air_date (s : MetaSoup) : List Char :=
  let fromComments :=
    match s.gameComments with
    | none => []
    | some txt =>
      match searchISO txt with
      | some m => m
      | none => commentsLongStage txt
  if fromComments.isEmpty then titleStage s else fromComments

/-- The fallback chain of extract_show_metadata starting at its second
strategy: the long-form comments stage, then the title stage. -/
def airDateFromStage2 (s : MetaSoup) : List Char :=
  let fromComments :=
    match s.gameComments with
    | none => []
    | some txt => commentsLongStage txt
  if fromComments.isEmpty then titleStage s else fromComments

/-- The game-type portion of extract_show_metadata: the three markers
tested in order, defaulting to Regular. -/
def extract_game_type (s : MetaSoup) : List Char :=
  if s.tournamentMarker then ("Tournament").data
  else if s.celebrityMarker then ("Celebrity").data
  else if s.collegeMarker then ("College").data
  else ("Regular").data

/-- re.search for the game-id pattern in the url: the literal key
followed by at least one digit, leftmost match, maximal digit run. -/
def searchGameId : List Char → Option (List Char)
  | [] => none
  | c :: cs =>
    if ("game_id=").data.isPrefixOf (c :: cs) then
      let ds := ((c :: cs).drop 8).takeWhile Char.isDigit
      if ds.isEmpty then searchGameId cs else some ds
    else searchGameId cs

/-- extract_show_metadata from scrape.py, with the setdefault defaults
applied. -/
def extract_show_metadata (s : MetaSoup) (url : List Char) : ShowMetadata :=
  { show_id := (searchGameId url).getD []
  , air_date := extract_air_date s
  , game_type := extract_game_type s }

/-- Validity of the calendar date spelled by an ISO-shaped match; this is
the notion of valid calendar date the specification appeals to for the
first strategy. -/
def isoValid (l : List Char) : Bool :=
  match l with
  | [a, b, c, d, _, e, f, _, g, h] =>
    validDate (digitsVal [a, b, c, d]) (digitsVal [e, f]) (digitsVal [g, h])
  | _ => false

/-! ## Properties of the text normalizer -/

/-- The head of the list, when there is one, is not whitespace. -/
def noLeadWs : List Char → Bool
  | [] => true
  | c :: _ => !(isWs c)

/-- No two adjacent characters are both whitespace. -/
def noConsecWs (l : List Char) : Prop :=
  l.Chain' (fun a b => isWs a = false ∨ isWs b = false)

lemma dropWhile_noLead (l : List Char) : noLeadWs (l.dropWhile isWs) = true := by
  induction l with
  | nil => rfl
  | cons c cs ih =>
    by_cases h : isWs c
    · simpa [List.dropWhile_cons, h] using ih
    · simp [List.dropWhile_cons, h, noLeadWs]

lemma noLead_append {x y : List Char} (h : noLeadWs (x ++ y) = true) : noLeadWs x = true := by
  cases x with
  | nil => rfl
  | cons c t => simpa [noLeadWs] using h

lemma dropWhile_id_of_noLead {l : List Char} (h : noLeadWs l = true) :
    l.dropWhile isWs = l := by
  cases l with
  | nil => rfl
  | cons c t =>
    simp only [noLeadWs, Bool.not_eq_true'] at h
    simp [List.dropWhile_cons, h]

lemma stripChars_noLead (l : List Char) : noLeadWs (stripChars l) = true :=
  dropWhile_noLead _

lemma stripChars_noTrail (l : List Char) : noLeadWs (stripChars l).reverse = true := by
  have h1 : noLeadWs (dropTrailingWs l).reverse = true := by
    rw [dropTrailingWs, List.reverse_reverse]
    exact dropWhile_noLead _
  have h2 : (dropTrailingWs l).takeWhile isWs ++ stripChars l = dropTrailingWs l :=
    List.takeWhile_append_dropWhile isWs _
  have h3 := congrArg List.reverse h2
  rw [List.reverse_append] at h3
  rw [← h3] at h1
  exact noLead_append h1

lemma noConsec_reverse {l : List Char} (h : noConsecWs l) : noConsecWs l.reverse := by
  rw [noConsecWs, List.chain'_reverse]
  exact h.imp fun a b hab => hab.symm

lemma stripChars_noConsec {l : List Char} (h : noConsecWs l) : noConsecWs (stripChars l) := by
  have h1 : noConsecWs (l.reverse.dropWhile isWs) :=
    (noConsec_reverse h).suffix (List.dropWhile_suffix _)
  have h2 : noConsecWs (dropTrailingWs l) := noConsec_reverse h1
  exact h2.suffix (List.dropWhile_suffix _)

lemma mem_stripChars {c : Char} {l : List Char} (h : c ∈ stripChars l) : c ∈ l := by
  have h1 : c ∈ dropTrailingWs l := (List.dropWhile_sublist _).subset h
  have h2 : c ∈ l.reverse.dropWhile isWs := by
    rw [dropTrailingWs, List.mem_reverse] at h1
    exact h1
  have h3 : c ∈ l.reverse := (List.dropWhile_sublist _).subset h2
  rwa [List.mem_reverse] at h3

lemma collapseAux_cons_ws_true {c : Char} (cs : List Char) (h : isWs c = true) :
    collapseAux true (c :: cs) = collapseAux true cs := by
  simp [collapseAux, h]

lemma collapseAux_cons_ws_false {c : Char} (cs : List Char) (h : isWs c = true) :
    collapseAux false (c :: cs) = ' ' :: collapseAux true cs := by
  simp [collapseAux, h]

lemma collapseAux_cons_not_ws {c : Char} (cs : List Char) (b : Bool) (h : isWs c = false) :
    collapseAux b (c :: cs) = c :: collapseAux false cs := by
  simp [collapseAux, h]

lemma collapse_noLead (l : List Char) : noLeadWs (collapseAux true l) = true := by
  induction l with
  | nil => rfl
  | cons c cs ih =>
    by_cases h : isWs c
    · rw [collapseAux_cons_ws_true cs h]; exact ih
    · rw [collapseAux_cons_not_ws cs true (by simpa using h)]
      simpa [noLeadWs] using h

lemma collapse_noConsec (l : List Char) : ∀ b, noConsecWs (collapseAux b l) := by
  induction l with
  | nil => intro b; simp [collapseAux, noConsecWs]
  | cons c cs ih =>
    intro b
    by_cases h : isWs c
    · cases b with
      | true => rw [collapseAux_cons_ws_true cs h]; exact ih true
      | false =>
        rw [collapseAux_cons_ws_false cs h]
        have h1 := ih true
        have h2 := collapse_noLead cs
        cases hc : collapseAux true cs with
        | nil => simp [noConsecWs]
        | cons d ds =>
          rw [hc] at h1 h2
          rw [noConsecWs, List.chain'_cons]
          refine ⟨Or.inr ?_, h1⟩
          simpa [noLeadWs, Bool.not_eq_true'] using h2
    · rw [collapseAux_cons_not_ws cs b (by simpa using h)]
      have h1 := ih false
      cases hc : collapseAux false cs with
      | nil => simp [noConsecWs]
      | cons d ds =>
        rw [hc] at h1
        rw [noConsecWs, List.chain'_cons]
        exact ⟨Or.inl (by simpa using h), h1⟩

lemma collapse_wsSpace {l : List Char} :
    ∀ b, ∀ c ∈ collapseAux b l, isWs c = true → c = ' ' := by
  induction l with
  | nil => intro b c hc; simp [collapseAux] at hc
  | cons a cs ih =>
    intro b c hc hws
    by_cases h : isWs a
    · cases b with
      | true =>
        rw [collapseAux_cons_ws_true cs h] at hc
        exact ih true c hc hws
      | false =>
        rw [collapseAux_cons_ws_false cs h, List.mem_cons] at hc
        rcases hc with rfl | hc
        · rfl
        · exact ih true c hc hws
    · rw [collapseAux_cons_not_ws cs b (by simpa using h), List.mem_cons] at hc
      rcases hc with rfl | hc
      · exact absurd hws (by simp [h])
      · exact ih false c hc hws

lemma collapse_id {l : List Char} (hcons : noConsecWs l)
    (hsp : ∀ c ∈ l, isWs c = true → c = ' ') :
    collapseAux false l = l ∧ (noLeadWs l = true → collapseAux true l = l) := by
  induction l with
  | nil => exact ⟨rfl, fun _ => rfl⟩
  | cons c cs ih =>
    have hconsTail : noConsecWs cs := hcons.tail
    have hspTail : ∀ x ∈ cs, isWs x = true → x = ' ' :=
      fun x hx => hsp x (List.mem_cons_of_mem _ hx)
    obtain ⟨ihF, ihT⟩ := ih hconsTail hspTail
    by_cases h : isWs c
    · have hc : c = ' ' := hsp c (List.mem_cons_self _ _) h
      have hLeadTail : noLeadWs cs = true := by
        cases cs with
        | nil => rfl
        | cons d ds =>
          rcases (List.chain'_cons.mp hcons).1 with h1 | h1
          · rw [h] at h1; cases h1
          · simp [noLeadWs, h1]
      refine ⟨?_, ?_⟩
      · rw [collapseAux_cons_ws_false cs h, ihT hLeadTail, hc]
      · intro hlead
        rw [noLeadWs, h] at hlead
        cases hlead
    · refine ⟨?_, ?_⟩
      · rw [collapseAux_cons_not_ws cs false (by simpa using h), ihF]
      · intro _
        rw [collapseAux_cons_not_ws cs true (by simpa using h), ihF]

lemma strip_id {l : List Char} (h1 : noLeadWs l = true) (h2 : noLeadWs l.reverse = true) :
    stripChars l = l := by
  have hdt : dropTrailingWs l = l := by
    rw [dropTrailingWs, dropWhile_id_of_noLead h2, List.reverse_reverse]
  rw [stripChars, hdt, dropWhile_id_of_noLead h1]

/-- C4: squish is idempotent, its result never contains two consecutive
whitespace characters, never begins or ends with whitespace, and the
absent input maps to the empty string. -/
theorem c4_squish_spec :
    (∀ t : Option (List Char), squish (some (squish t)) = squish t) ∧
    (∀ t, noConsecWs (squish t)) ∧
    (∀ t, noLeadWs (squish t) = true) ∧
    (∀ t, noLeadWs (squish t).reverse = true) ∧
    squish none = [] := by
  have hcons : ∀ t, noConsecWs (squish t) := by
    intro t
    cases t with
    | none => simp [squish, noConsecWs]
    | some s => exact stripChars_noConsec (collapse_noConsec s false)
  have hlead : ∀ t, noLeadWs (squish t) = true := by
    intro t
    cases t with
    | none => rfl
    | some s => exact stripChars_noLead _
  have htrail : ∀ t, noLeadWs (squish t).reverse = true := by
    intro t
    cases t with
    | none => rfl
    | some s => exact stripChars_noTrail _
  have hsp : ∀ t, ∀ c ∈ squish t, isWs c = true → c = ' ' := by
    intro t c hc hws
    cases t with
    | none => simp [squish] at hc
    | some s => exact collapse_wsSpace false c (mem_stripChars hc) hws
  refine ⟨?_, hcons, hlead, htrail, rfl⟩
  intro t
  have h1 : collapseAux false (squish t) = squish t :=
    (collapse_id (hcons t) (hsp t)).1
  show stripChars (collapseAux false (squish t)) = squish t
  rw [h1, strip_id (hlead t) (htrail t)]

/-! ## Properties of the round and final extractors -/

lemma orElseO_none_right (x : Option α) : orElseO x none = x := by
  cases x <;> rfl

lemma orElseO_some_absorb (x : Option α) (v : α) (y : Option α) :
    orElseO (orElseO x (some v)) y = orElseO x (some v) := by
  cases x <;> rfl

lemma getLast?_cons_orElseO (a : α) (l : List α) :
    (a :: l).getLast? = orElseO l.getLast? (some a) := by
  cases l with
  | nil => rfl
  | cons b t =>
    rw [List.getLast?_cons_cons]
    cases h : (b :: t).getLast? with
    | none => simp at h
    | some x => rfl

lemma findQA_foldl (tds : List ClueTextTd) :
    ∀ q a : Option ClueTextTd,
      tds.foldl
        (fun qa td =>
          if isRevealId td.td_id then (qa.1, some td)
          else (orElseO qa.1 (some td), qa.2)) (q, a) =
      (orElseO q (tds.find? (fun td => !isRevealId td.td_id)),
       orElseO ((tds.filter (fun td => isRevealId td.td_id)).getLast?) a) := by
  induction tds with
  | nil => intro q a; cases q <;> rfl
  | cons td rest ih =>
    intro q a
    rw [List.foldl_cons]
    by_cases h : isRevealId td.td_id
    · simp only [h, if_true]
      rw [ih]
      rw [List.find?_cons_of_neg _ (by simp [h]), List.filter_cons_of_pos (by simp [h])]
      rw [getLast?_cons_orElseO, orElseO_some_absorb]
    · simp only [h, if_false, Bool.false_eq_true]
      rw [ih]
      rw [List.find?_cons_of_pos _ (by simp [h]), List.filter_cons_of_neg (by simp [h])]
      rw [orElseO_some_absorb]

/-- The cell loop resolved: the question cell is the first non-reveal
clue_text td, the answer cell is the last reveal clue_text td. -/
lemma findQA_eq (tds : List ClueTextTd) :
    findQA tds = (tds.find? (fun td => !isRevealId td.td_id),
                  (tds.filter (fun td => isRevealId td.td_id)).getLast?) := by
  rw [findQA, findQA_foldl tds none none]
  rw [orElseO_none_right]
  rfl

lemma cell_record_some_elim {cats : List (List Char)} {i : Nat} {cell : ClueCell}
    {r : ClueRecord} (h : cell_record cats i cell = some r) :
    cell.hasTable = true ∧
    r.topic = cats.getD i [] ∧
    r.money = parse_money (some (text_or_blank cell.valTd)) ∧
    r.question = text_or_blank ((findQA cell.clueTexts).1.map ClueTextTd.text) ∧
    r.answer = extract_answer (findQA cell.clueTexts).2 ∧
    ¬(r.question = [] ∧ r.answer = []) := by
  by_cases ht : cell.hasTable = true
  · rw [cell_record] at h
    simp only [ht, Bool.not_true, Bool.false_eq_true, if_false] at h
    split at h
    · exact absurd h (by simp)
    · next hcond =>
      injection h with h'
      subst h'
      refine ⟨ht, rfl, rfl, rfl, rfl, ?_⟩
      intro hqa
      apply hcond
      have h1 : text_or_blank (Option.map ClueTextTd.text (findQA cell.clueTexts).1) = [] :=
        hqa.1
      have h2 : extract_answer (findQA cell.clueTexts).2 = [] := hqa.2
      rw [h1, h2]
      rfl
  · rw [cell_record] at h
    simp only [Bool.not_eq_true] at ht
    rw [ht] at h
    exact absurd h (by simp)

lemma cell_record_none_of_no_table {cats : List (List Char)} {i : Nat} {cell : ClueCell}
    (h : cell.hasTable = false) : cell_record cats i cell = none := by
  rw [cell_record, h]
  rfl

lemma parse_row_mem {cats : List (List Char)} {row : List ClueCell} {r : ClueRecord}
    (h : r ∈ parse_row cats row) :
    ∃ i cell, cell_record cats i cell = some r := by
  rw [parse_row] at h
  split at h
  · simp at h
  · rw [List.mem_filterMap] at h
    obtain ⟨p, _, hpr⟩ := h
    exact ⟨p.1, p.2, hpr⟩

lemma parse_round_mem {t : RoundTable} {p : List Char} {r : ClueRecord}
    (h : r ∈ parse_round t p) :
    ∃ i cell, cell_record (t.catCells.map text_or_blank) i cell = some r := by
  simp only [parse_round] at h
  split at h
  · simp at h
  · rw [List.mem_flatMap] at h
    obtain ⟨row, _, hrow⟩ := h
    exact parse_row_mem hrow

/-- C2: every record produced by the round extractor or the final-round
extractor has a non-empty question or a non-empty answer; a cell whose
extracted question and answer are both empty contributes no record. -/
theorem c2_nonempty_invariant :
    (∀ (t : RoundTable) (p : List Char) (r : ClueRecord),
        r ∈ parse_round t p → ¬(r.question = [] ∧ r.answer = [])) ∧
    (∀ (f : Option FinalTable) (r : ClueRecord),
        r ∈ parse_final f → ¬(r.question = [] ∧ r.answer = [])) := by
  constructor
  · intro t p r h
    obtain ⟨i, cell, hcell⟩ := parse_round_mem h
    exact (cell_record_some_elim hcell).2.2.2.2.2
  · intro f r h
    cases f with
    | none => simp [parse_final] at h
    | some ft =>
      simp only [parse_final] at h
      split at h
      · simp at h
      · next hcond =>
        rw [List.mem_singleton] at h
        subst h
        intro hqa
        apply hcond
        have h1 : text_or_blank ft.clueFJ = [] := hqa.1
        have h2 : extract_answer ft.clueFJr = [] := hqa.2
        rw [h1, h2]
        rfl

theorem c2_witness :
    ¬((⟨("SCIENCE").data, none, ("waters formula").data, ("H2O").data⟩ : ClueRecord).question
        = [] ∧
      (⟨("SCIENCE").data, none, ("waters formula").data, ("H2O").data⟩ : ClueRecord).answer
        = []) :=
  c2_nonempty_invariant.2
    (some ⟨some ("SCIENCE").data, some ("waters formula").data,
      some ⟨("clue_FJ_r").data, ("blah").data, some ("H2O").data⟩⟩)
    ⟨("SCIENCE").data, none, ("waters formula").data, ("H2O").data⟩
    (by decide)

/-- C7: parse_final yields the empty sequence when the final-round table
is absent, never more than one record, the money field of its record is
always absent, and when the table is present and the non-empty invariant
holds it yields exactly one record. -/
theorem c7_parse_final_spec :
    parse_final none = [] ∧
    (∀ f : Option FinalTable, (parse_final f).length ≤ 1) ∧
    (∀ (f : Option FinalTable) (r : ClueRecord), r ∈ parse_final f → r.money = none) ∧
    (∀ ft : FinalTable,
        ¬(text_or_blank ft.clueFJ = [] ∧ extract_answer ft.clueFJr = []) →
        (parse_final (some ft)).length = 1) := by
  refine ⟨rfl, ?_, ?_, ?_⟩
  · intro f
    cases f with
    | none => simp [parse_final]
    | some ft =>
      simp only [parse_final]
      split
      · simp
      · simp
  · intro f r h
    cases f with
    | none => simp [parse_final] at h
    | some ft =>
      simp only [parse_final] at h
      split at h
      · simp at h
      · rw [List.mem_singleton] at h
        subst h
        rfl
  · intro ft hne
    simp only [parse_final]
    split
    · next hcond =>
      exfalso
      apply hne
      rw [Bool.and_eq_true] at hcond
      exact ⟨List.isEmpty_iff.mp hcond.1, List.isEmpty_iff.mp hcond.2⟩
    · rfl

theorem c7_witness :
    (parse_final (some ⟨some ("SCIENCE").data, some ("waters formula").data,
        some ⟨("clue_FJ_r").data, ("blah").data, some ("H2O").data⟩⟩)).length = 1 :=
  c7_parse_final_spec.2.2.2 _ (by decide)

/-- C8: a populated cell with no reveal clue_text td yields a record with
a non-empty question and an empty answer, and a row whose cells are all
unpopulated contributes no records. -/
theorem c8_no_reveal_and_empty_row :
    (∀ (cats : List (List Char)) (i : Nat) (cell : ClueCell) (r : ClueRecord),
        (∀ td ∈ cell.clueTexts, isRevealId td.td_id = false) →
        cell_record cats i cell = some r →
        r.question ≠ [] ∧ r.answer = []) ∧
    (∀ (cats : List (List Char)) (row : List ClueCell),
        (∀ cell ∈ row, cell.hasTable = false) → parse_row cats row = []) := by
  constructor
  · intro cats i cell r hnorev hcell
    obtain ⟨_, _, _, _, ha, hne⟩ := cell_record_some_elim hcell
    have hfilter : cell.clueTexts.filter (fun td => isRevealId td.td_id) = [] := by
      rw [List.filter_eq_nil_iff]
      intro td htd
      simp [hnorev td htd]
    have ha2 : r.answer = [] := by
      rw [ha, findQA_eq, hfilter]
      rfl
    refine ⟨?_, ha2⟩
    intro hq0
    exact hne ⟨hq0, ha2⟩
  · intro cats row hrow
    rw [parse_row]
    split
    · rfl
    · rw [List.filterMap_eq_nil_iff]
      intro p hp
      apply cell_record_none_of_no_table
      apply hrow
      have hmem : p.2 ∈ row.enum.map Prod.snd := List.mem_map_of_mem _ hp
      rwa [List.enum_map_snd] at hmem

theorem c8_witness :
    (⟨[], some 200, ("q1").data, []⟩ : ClueRecord).question ≠ [] ∧
    (⟨[], some 200, ("q1").data, []⟩ : ClueRecord).answer = [] :=
  c8_no_reveal_and_empty_row.1 [] 0
    ⟨true, some ("$200").data, [⟨("clue_J_1_1").data, ("q1").data, none⟩]⟩
    ⟨[], some 200, ("q1").data, []⟩
    (by decide) (by decide)

/-- C10: in a cell with several clue_text tds, the question comes from
the first non-reveal td and the answer source is the last reveal td, and
a non-empty answer requires the reveal cell to carry the
correct-response element. -/
theorem c10_first_question_last_reveal :
    (∀ tds : List ClueTextTd,
        findQA tds = (tds.find? (fun td => !isRevealId td.td_id),
                      (tds.filter (fun td => isRevealId td.td_id)).getLast?)) ∧
    (∀ a : Option ClueTextTd, extract_answer a ≠ [] →
        ∃ td cr, a = some td ∧ td.correctResponse = some cr) := by
  constructor
  · exact findQA_eq
  · intro a h
    cases a with
    | none => exact absurd rfl h
    | some td =>
      cases hcr : td.correctResponse with
      | none =>
        exfalso
        apply h
        simp [extract_answer, hcr, text_or_blank]
      | some cr => exact ⟨td, cr, rfl, hcr⟩

theorem c10_witness :
    ∃ td cr,
      (some (⟨("clue_J_1_1_r").data, ("blah").data, some ("H2O").data⟩ : ClueTextTd)
        : Option ClueTextTd) = some td ∧
      td.correctResponse = some cr :=
  c10_first_question_last_reveal.2 _ (by decide)

/-- The table of the captured category labels and out-of-range columns
scenario: four category cells and one body row of six populated cells. -/
def c6Table : RoundTable :=
  { catCells := [some ("A").data, some ("B").data, some ("C").data, some ("D").data]
  , trs :=
      [ []
      , [ ⟨true, some ("$200").data, [⟨("clue_J_1_1").data, ("q1").data, none⟩]⟩
        , ⟨true, some ("$200").data, [⟨("clue_J_2_1").data, ("q2").data, none⟩]⟩
        , ⟨true, some ("$200").data, [⟨("clue_J_3_1").data, ("q3").data, none⟩]⟩
        , ⟨true, some ("$200").data, [⟨("clue_J_4_1").data, ("q4").data, none⟩]⟩
        , ⟨true, some ("$200").data, [⟨("clue_J_5_1").data, ("q5").data, none⟩]⟩
        , ⟨true, some ("$200").data, [⟨("clue_J_6_1").data, ("q6").data, none⟩]⟩ ] ] }

/-- The six records the scenario yields: columns five and six carry an
empty topic. -/
def c6Expected : List ClueRecord :=
  [ ⟨("A").data, some 200, ("q1").data, []⟩
  , ⟨("B").data, some 200, ("q2").data, []⟩
  , ⟨("C").data, some 200, ("q3").data, []⟩
  , ⟨("D").data, some 200, ("q4").data, []⟩
  , ⟨[], some 200, ("q5").data, []⟩
  , ⟨[], some 200, ("q6").data, []⟩ ]

/-- C6: a column index beyond the captured category labels degrades to an
empty topic; whether a cell yields a record does not depend on the
categories or the column index; and the four-of-six scenario yields all
six records, the last two with empty topic. -/
theorem c6_out_of_range_topic :
    (∀ (cats : List (List Char)) (i : Nat) (cell : ClueCell) (r : ClueRecord),
        cats.length ≤ i → cell_record cats i cell = some r → r.topic = []) ∧
    (∀ (cats cats2 : List (List Char)) (i j : Nat) (cell : ClueCell),
        (cell_record cats i cell).isSome = (cell_record cats2 j cell).isSome) ∧
    parse_round c6Table ("J").data = c6Expected := by
  refine ⟨?_, ?_, by decide⟩
  · intro cats i cell r hlen hcell
    have ht := (cell_record_some_elim hcell).2.1
    rw [ht]
    exact List.getD_eq_default _ _ hlen
  · intro cats cats2 i j cell
    simp only [cell_record]
    by_cases ht : cell.hasTable = true
    · simp only [ht, Bool.not_true, Bool.false_eq_true, if_false]
      split
      · next hcond => simp [hcond]
      · next hcond => simp [hcond]
    · simp only [Bool.not_eq_true] at ht
      simp [ht]

theorem c6_witness :
    (⟨[], some 200, ("q5").data, []⟩ : ClueRecord).topic = [] :=
  c6_out_of_range_topic.1
    [("A").data, ("B").data, ("C").data, ("D").data] 5
    ⟨true, some ("$200").data, [⟨("clue_J_5_1").data, ("q5").data, none⟩]⟩
    ⟨[], some 200, ("q5").data, []⟩
    (by decide) (by decide)

/-! ## Properties of the money parser -/

lemma findGroupsFuel_shape :
    ∀ (fuel : Nat) (s : List Char), ∀ g ∈ findGroupsFuel fuel s,
      ∃ c t, g = c :: t ∧ c.isDigit = true ∧ ∀ x ∈ t, isDigitOrComma x = true := by
  intro fuel
  induction fuel with
  | zero => intro s g hg; simp [findGroupsFuel] at hg
  | succ n ih =>
    intro s g hg
    cases s with
    | nil => simp [findGroupsFuel] at hg
    | cons c cs =>
      rw [findGroupsFuel] at hg
      by_cases h : c.isDigit
      · rw [if_pos h] at hg
        rcases List.mem_cons.mp hg with rfl | hg2
        · exact ⟨c, cs.takeWhile isDigitOrComma, rfl, h,
            fun x hx => List.mem_takeWhile_imp hx⟩
        · exact ih _ g hg2
      · rw [if_neg h] at hg
        exact ih _ g hg

lemma digit_ne_comma {c : Char} (h : c.isDigit = true) : (c == ',') = false := by
  cases hbe : c == ','
  · rfl
  · exfalso
    rw [eq_of_beq hbe] at h
    exact absurd h (by decide)

/-- C3: parse_money is absent on absent input and on inputs with no digit
group, and otherwise converts the last digit group with its commas
removed; in particular the two documented examples hold. -/
theorem c3_parse_money_spec :
    parse_money none = none ∧
    (∀ s : List Char, findGroups s = [] → parse_money (some s) = none) ∧
    (∀ s g : List Char, (findGroups s).getLast? = some g →
        parse_money (some s) = some ((digitsVal (stripCommas g) : Nat) : Int)) ∧
    parse_money (some ("DD: $1,800").data) = some 1800 ∧
    parse_money (some ("$1,600").data) = some 1600 := by
  refine ⟨rfl, ?_, ?_, by decide, by decide⟩
  · intro s hs
    rw [parse_money]
    split
    · rfl
    · rw [hs]
      rfl
  · intro s g hgl
    have hmem : g ∈ findGroups s := List.mem_of_getLast?_eq_some hgl
    obtain ⟨c, t, hg, hc, ht⟩ := findGroupsFuel_shape s.length s g hmem
    subst hg
    have hs : s.isEmpty = false := by
      cases s with
      | nil => simp [findGroups, findGroupsFuel] at hgl
      | cons a as => rfl
    have hstrip : stripCommas (c :: t) = c :: stripCommas t := by
      rw [stripCommas, List.filter_cons_of_pos (by simp [digit_ne_comma hc])]
      rfl
    have hall : (c :: stripCommas t).all Char.isDigit = true := by
      rw [List.all_eq_true]
      intro x hx
      rcases List.mem_cons.mp hx with rfl | hx2
      · exact hc
      · have hmf := List.mem_filter.mp hx2
        have hdc := ht x hmf.1
        rw [isDigitOrComma] at hdc
        rcases (by simpa using hdc : x.isDigit = true ∨ (x == ',') = true) with h1 | h1
        · exact h1
        · exfalso
          have h2 := hmf.2
          rw [h1] at h2
          exact absurd h2 (by decide)
    rw [parse_money, if_neg (by simp [hs]), hgl]
    show toIntOpt (stripCommas (c :: t)) =
      some ((digitsVal (stripCommas (c :: t)) : Nat) : Int)
    rw [hstrip]
    unfold toIntOpt
    rw [if_neg (by simp), if_pos hall]

theorem c3_witness :
    parse_money (some ("2 for $1,000").data) =
      some ((digitsVal (stripCommas ("1,000").data) : Nat) : Int) :=
  c3_parse_money_spec.2.2.1 ("2 for $1,000").data ("1,000").data (by decide)

/-- C5: parse_money is total over all inputs and its result is either
absent or a non-negative integer; a failing integer conversion inside it
yields absent rather than an exception. -/
theorem c5_parse_money_total_nonneg :
    ∀ raw : Option (List Char),
      parse_money raw = none ∨ ∃ n : Int, parse_money raw = some n ∧ 0 ≤ n := by
  intro raw
  cases raw with
  | none => exact Or.inl rfl
  | some s =>
    rw [parse_money]
    split
    · exact Or.inl rfl
    · cases hg : (findGroups s).getLast? with
      | none => exact Or.inl rfl
      | some g =>
        show toIntOpt (stripCommas g) = none ∨
          ∃ n, toIntOpt (stripCommas g) = some n ∧ 0 ≤ n
        unfold toIntOpt
        by_cases h1 : (stripCommas g).isEmpty = true
        · rw [if_pos h1]
          exact Or.inl rfl
        · rw [if_neg h1]
          by_cases h2 : (stripCommas g).all Char.isDigit = true
          · rw [if_pos h2]
            exact Or.inr ⟨_, rfl, Int.natCast_nonneg _⟩
          · rw [if_neg h2]
            exact Or.inl rfl

/-! ## Properties of the metadata extractor -/

/-- C9: the game type is tested in the fixed order tournament, celebrity,
college, the first match wins, no match defaults to Regular, and the
result is always exactly one of the four tags. -/
theorem c9_game_type_spec :
    ∀ (s : MetaSoup) (url : List Char),
      ((extract_show_metadata s url).game_type = ("Tournament").data ∨
       (extract_show_metadata s url).game_type = ("Celebrity").data ∨
       (extract_show_metadata s url).game_type = ("College").data ∨
       (extract_show_metadata s url).game_type = ("Regular").data) ∧
      ((extract_show_metadata s url).game_type = ("Tournament").data ↔
        s.tournamentMarker = true) ∧
      ((extract_show_metadata s url).game_type = ("Celebrity").data ↔
        (s.tournamentMarker = false ∧ s.celebrityMarker = true)) ∧
      ((extract_show_metadata s url).game_type = ("College").data ↔
        (s.tournamentMarker = false ∧ s.celebrityMarker = false ∧
         s.collegeMarker = true)) ∧
      ((extract_show_metadata s url).game_type = ("Regular").data ↔
        (s.tournamentMarker = false ∧ s.celebrityMarker = false ∧
         s.collegeMarker = false)) := by
  intro s url
  obtain ⟨gc, tt, tm, cm, cg⟩ := s
  cases tm <;> cases cm <;> cases cg <;>
    simp [extract_show_metadata, extract_game_type]

lemma isoAt_isEmpty_false {l m : List Char} (h : isoAt l = some m) : m.isEmpty = false := by
  unfold isoAt at h
  split at h
  · split at h
    · injection h with h'
      subst h'
      rfl
    · exact absurd h (by simp)
  · exact absurd h (by simp)

lemma searchISO_isEmpty_false : ∀ {txt m : List Char},
    searchISO txt = some m → m.isEmpty = false := by
  intro txt
  induction txt with
  | nil => intro m h; simp [searchISO] at h
  | cons c cs ih =>
    intro m h
    rw [searchISO] at h
    cases hi : isoAt (c :: cs) with
    | some x =>
      rw [hi] at h
      injection h with h'
      subst h'
      exact isoAt_isEmpty_false hi
    | none =>
      rw [hi] at h
      exact ih h

/-- C1 as stated by the specification: whenever the ISO-shaped match in
the comments region is not a valid calendar date, the later strategies
decide the air date. -/
def ClaimC1Statement : Prop :=
  ∀ (s : MetaSoup) (txt m : List Char),
    s.gameComments = some txt → searchISO txt = some m → isoValid m = false →
    extract_air_date s = airDateFromStage2 s

/-- C1 counterexample: a comments region whose ISO-shaped match is the
invalid calendar date 2024-13-99 wins outright even though the title
region holds a parseable date, so the claimed fallthrough does not
happen. -/
theorem c1_counterexample : ¬ClaimC1Statement := by
  intro hclaim
  have h2 := hclaim
    ⟨some ("aired 2024-13-99").data, some ("Wednesday, April 10, 2024").data,
      false, false, false⟩
    ("aired 2024-13-99").data ("2024-13-99").data rfl (by decide) (by decide)
  exact absurd h2 (by decide)

/-- C1 amended: the fallback chain is fixed-precedence and each
long-form parse that fails to convert to a valid calendar date is
swallowed with the next strategy tried, and all failing leaves the air
date empty; but the ISO strategy performs no calendar validation, so any
ISO-shaped match in the comments region wins outright, valid or not. -/
theorem c1_amended_air_date_chain :
    (∀ (s : MetaSoup) (txt m : List Char),
        s.gameComments = some txt → searchISO txt = some m →
        extract_air_date s = m) ∧
    (∀ (s : MetaSoup) (txt : List Char),
        s.gameComments = some txt → searchISO txt = none →
        extract_air_date s = airDateFromStage2 s) ∧
    (∀ s : MetaSoup, s.gameComments = none →
        extract_air_date s = airDateFromStage2 s) ∧
    (∀ (s : MetaSoup) (txt m d y : List Char),
        s.gameComments = some txt → searchISO txt = none →
        searchLong txt = some (m, d, y) → convertMDY m d y = none →
        extract_air_date s = titleStage s) ∧
    (∀ s : MetaSoup, s.gameComments = none → s.titleText = none →
        extract_air_date s = []) := by
  refine ⟨?_, ?_, ?_, ?_, ?_⟩
  · intro s txt m hc hiso
    simp only [extract_air_date, hc, hiso]
    rw [searchISO_isEmpty_false hiso]
    simp
  · intro s txt hc hiso
    simp only [extract_air_date, airDateFromStage2, hc, hiso]
  · intro s hc
    simp only [extract_air_date, airDateFromStage2, hc]
  · intro s txt m d y hc hiso hlong hconv
    simp only [extract_air_date, hc, hiso, commentsLongStage, hlong, hconv,
      Option.getD_none]
    rfl
  · intro s hc ht
    simp only [extract_air_date, titleStage, hc, ht]
    rfl

theorem c1_witness :
    extract_air_date ⟨some ("aired 2024-01-15").data, none, false, false, false⟩ =
      ("2024-01-15").data :=
  c1_amended_air_date_chain.1 _ _ _ rfl (by decide)

end JArchive
